import Mathlib

/-!
# shellCommander: sequential command pipelines

A shallow embedding of `shellCommander.go`.

* Go `string` values and the contents of a `bytes.Buffer` are Lean `String`s.
* A Go `error` is `Option String`: `none` is `nil`, `some m` is a non-nil error
  whose `Error()` text is `m`.
* The outside world (process table, file system) is an explicit state `σ`
  threaded through every call that leaves the program: launching a process
  and running a cleanup function.
* A cleanup function is handed its own stage, whose `Params()` is the stage's
  slice itself: besides returning an error and acting on the world, it can
  store other strings in that slice.  Every stage is taken to own its slice.
* The `select` of `Run` waits for two events.  Their order is fixed by
  instants counted from the call of `Run`: the process reports how long it
  takes to exit, the context reports when `Done()` is closed.
-/

namespace shellCommander

/-- Go `error`: `none` is `nil`, `some m` has `Error() = m`. -/
abbrev error := Option String

/-- What a `Cleaner` can read of the `Command` it is handed: `Name()` and
`Params()`.  (`Clean()` is left out of the view: calling it from inside the
cleaner re-enters the cleaner itself.) -/
structure CommandView where
  Name : String
  Params : List String
deriving DecidableEq, Repr

/-- What one call of a cleanup function leaves behind. -/
structure Cleaned (σ : Type) where
  /-- the returned error -/
  err : error
  /-- the world after the call -/
  world : σ
  /-- the strings found, from the first element on, in the slice that
  `Params()` handed to the cleaner, once the cleaner has returned -/
  params : List String

/-- Go `type Cleaner func(Command) error`, with its effects made explicit: on
the world, and on the elements of the slice `Params()` returns, which is the
slice of the stage itself (lines 54-56) and not a copy. -/
abbrev Cleaner (σ : Type) := CommandView → σ → Cleaned σ

/-- Go `NoCleanFn = func(c Command) error { return nil }`. -/
def NoCleanFn {σ : Type} : Cleaner σ := fun c s => { err := none, world := s, params := c.Params }

/-- Storing `new` in the elements of the slice `old`: a slice keeps its
length, whatever is assigned to its elements. -/
def overwrite : List String → List String → List String
  | [], _ => []
  | x :: xs, [] => x :: xs
  | _ :: xs, y :: ys => y :: overwrite xs ys

/-- Go `type cmd struct { name string; params []string; cleanfn Cleaner }`. -/
structure cmd (σ : Type) where
  name : String
  params : List String
  cleanfn : Cleaner σ

variable {σ : Type}

/-- Go `func (this *cmd) Name() string`. -/
def cmd.Name (this : cmd σ) : String := this.name

/-- Go `func (this *cmd) Params() []string`. -/
def cmd.Params (this : cmd σ) : List String := this.params

/-- The `Command` a cleaner receives when `this` is passed to it. -/
def cmd.view (this : cmd σ) : CommandView := ⟨this.Name, this.Params⟩

/-- The outcome of a call of `Clean` on one stage. -/
structure StageCleaned (σ : Type) where
  /-- the returned error -/
  err : error
  /-- the receiver after the call -/
  this : cmd σ
  /-- the world after the call -/
  world : σ

/-- Go `func (this *cmd) Clean() error { return this.cleanfn(this) }`. -/
def cmd.Clean (this : cmd σ) (s : σ) : StageCleaned σ :=
  { err := (this.cleanfn this.view s).err,
    this := { this with params := overwrite this.params (this.cleanfn this.view s).params },
    world := (this.cleanfn this.view s).world }

/-- Go `func NewCommand(cleanfn Cleaner, name string, args ...string) Command`. -/
def NewCommand (cleanfn : Cleaner σ) (name : String) (args : List String) : cmd σ :=
  { name := name, params := args, cleanfn := cleanfn }

/-- Go `type pipeCmd struct { stdin, stdout, stderr *bytes.Buffer; subCmds []Command }`.
Each buffer is represented by its unread contents. -/
structure pipeCmd (σ : Type) where
  stdin : String
  stdout : String
  stderr : String
  subCmds : List (cmd σ)

/-- Go `func NewPipeCmd(cmds ...Command) PipeCmd`: three empty buffers, and the
commands appended one by one to an empty slice. -/
def NewPipeCmd (cmds : List (cmd σ)) : pipeCmd σ :=
  { stdin := "", stdout := "", stderr := "",
    subCmds := cmds.foldl (fun acc c => acc ++ [c]) [] }

/-! ## The process launcher and the context -/

/-- The two cases of the `select` in `Run`. -/
inductive Branch where
  | tchan
  | done
deriving DecidableEq, Repr

/-- What the operating system does with one `exec.Cmd`. -/
structure Proc where
  /-- result of `cmd.Start()` -/
  start : error
  /-- time from `Start` until the process exits by itself; `none`: it never does -/
  dur : Option Nat
  /-- bytes written to `cmd.Stdout` when the `select` proceeds -/
  stdout : String
  /-- bytes written to `cmd.Stderr` when the `select` proceeds -/
  stderr : String
  /-- number of bytes read from `cmd.Stdin` when the `select` proceeds -/
  used : Nat
  /-- result of `cmd.Wait()` -/
  wait : error
  /-- result of `cmd.Process.Kill()` -/
  kill : error
  /-- the case `select` picks when both channels are ready at once -/
  tie : Branch
deriving DecidableEq, Repr

/-- The process launcher (`os/exec`): from the program name, its arguments,
the contents bound to its standard input and the state of the world, the
behaviour of the process and the world it leaves. -/
abbrev Launcher (σ : Type) := String → List String → String → σ → Proc × σ

/-- A `context.Context` as `Run` uses it. -/
structure Context where
  /-- delay from the call of `Run` until `Done()` is closed; `some 0`: it is
  closed already when `Run` is called; `none`: it never is -/
  after : Option Nat
  /-- text of `ctx.Err()` once `Done()` is closed -/
  err : String
deriving DecidableEq, Repr

/-- The statement `select { case i := <-tchan: ...; case <-ctx.Done(): ... }`
entered at instant `now` for a process started at that instant: the case whose
channel is ready first is taken, `p.tie` decides when both are ready together,
and `none` means that the statement blocks for ever. -/
def select (ctx : Context) (now : Nat) (p : Proc) : Option Branch :=
  match p.dur, ctx.after with
  | none, none => none
  | some _, none => some Branch.tchan
  | none, some _ => some Branch.done
  | some d, some t =>
    if now + d < max t now then some Branch.tchan
    else if max t now < now + d then some Branch.done
    else some p.tie

/-- One `exec.Command` made by `Run`: its `Args` (printed under `debug`), the
contents bound to its `Stdin`, the instant of `Start`, and what the operating
system did with it. -/
structure Launched where
  name : String
  params : List String
  stdin : String
  started : Nat
  proc : Proc
deriving DecidableEq, Repr

/-- The outcome of a call of `Run`. -/
structure RunOut (σ : Type) where
  /-- the returned `(stdout, stderr, err)`; `none` when `Run` never returns -/
  ret : Option (String × String × error)
  /-- the receiver after the call -/
  this : pipeCmd σ
  /-- the world after the call -/
  world : σ
  /-- the commands launched, in order -/
  launched : List Launched

/-- The bytes of a buffer left after `n` of them were read. -/
def unread (buf : String) (n : Nat) : String := ⟨buf.data.drop n⟩

/-- The loop `for _, c := range this.subCmds { ... }` of `Run` followed by
its final `return`, over the commands still to run. -/
def runLoop (launch : Launcher σ) (ctx : Context) :
    List (cmd σ) → Nat → pipeCmd σ → σ → RunOut σ
  | [], _, this, s =>
    { ret := some (this.stdout, this.stderr, none), this := this, world := s, launched := [] }
  | c :: cs, now, this, s =>
    -- this.stdout = &bytes.Buffer{}; this.stderr = &bytes.Buffer{}
    let this1 : pipeCmd σ := { this with stdout := "", stderr := "" }
    -- cmd := exec.Command(c.Name(), c.Params()...); cmd.Stdin = this.stdin
    let r := launch c.Name c.Params this1.stdin s
    let p := r.1
    let l : Launched :=
      { name := c.Name, params := c.Params, stdin := this1.stdin, started := now, proc := p }
    match p.start with
    | some e => { ret := some ("", "", some e), this := this1, world := r.2, launched := [l] }
    | none =>
      match select ctx now p with
      | none => { ret := none, this := this1, world := r.2, launched := [l] }
      | some b =>
        let this2 : pipeCmd σ :=
          { this1 with stdin := unread this1.stdin p.used, stdout := p.stdout, stderr := p.stderr }
        match b with
        | Branch.tchan =>
          match p.wait with
          | some e => { ret := some ("", "", some e), this := this2, world := r.2, launched := [l] }
          | none =>
            -- this.stdin = cmd.Stdout.(*bytes.Buffer)
            let o := runLoop launch ctx cs (now + p.dur.getD 0)
              { this2 with stdin := this2.stdout } r.2
            { o with launched := l :: o.launched }
        | Branch.done =>
          match p.kill with
          | some e => { ret := some ("", "", some e), this := this2, world := r.2, launched := [l] }
          | none =>
            { ret := some ("", "", some ctx.err), this := this2, world := r.2, launched := [l] }

/-- Go `func (this *pipeCmd) Run(ctx context.Context) (stdout, stderr string, err error)`. -/
def pipeCmd.Run (launch : Launcher σ) (ctx : Context) (this : pipeCmd σ) (s : σ) : RunOut σ :=
  runLoop launch ctx this.subCmds 0 this s

/-- What the loop of `Clean` leaves behind. -/
structure CleanLoopOut (σ : Type) where
  /-- the variable `errc` -/
  errc : error
  /-- the world after the loop -/
  world : σ
  /-- the commands the loop ranged over, as their cleanups left them -/
  cmds : List (cmd σ)

/-- The loop of `Clean` over the commands still to clean, `errc` being the
error accumulated so far. -/
def cleanLoop : List (cmd σ) → error → σ → CleanLoopOut σ
  | [], errc, s => { errc := errc, world := s, cmds := [] }
  | c :: cs, errc, s =>
    let r := c.Clean s
    match r.err with
    | some err =>
      match errc with
      | some m =>
        { cleanLoop cs (some (m ++ "\n" ++ err)) r.world with
          cmds := r.this :: (cleanLoop cs (some (m ++ "\n" ++ err)) r.world).cmds }
      | none =>
        { cleanLoop cs (some err) r.world with
          cmds := r.this :: (cleanLoop cs (some err) r.world).cmds }
    | none =>
      { cleanLoop cs errc r.world with cmds := r.this :: (cleanLoop cs errc r.world).cmds }

/-- The outcome of a call of `Clean`. -/
structure CleanOut (σ : Type) where
  /-- the returned error -/
  err : error
  /-- the receiver after the call -/
  this : pipeCmd σ
  /-- the world after the call -/
  world : σ

/-- Go `func (this *pipeCmd) Clean() error`. -/
def pipeCmd.Clean (this : pipeCmd σ) (s : σ) : CleanOut σ :=
  let r := cleanLoop this.subCmds none s
  { err := r.errc, this := { this with subCmds := r.cmds }, world := r.world }


/-! ## Observations used to state the properties -/

/-- The values returned by successive calls of `Run` on one pipeline, each
call with its own launcher and context, each starting from the receiver and
the world the call before it left.  A call that never returns is the last. -/
def runs : List (Launcher σ × Context) → pipeCmd σ → σ → List (Option (String × String × error))
  | [], _, _ => []
  | (launch, ctx) :: rest, pc, s =>
    match (pc.Run launch ctx s).ret with
    | none => [none]
    | some r => some r :: runs rest (pc.Run launch ctx s).this (pc.Run launch ctx s).world

/-- The errors the cleanups of the given commands return when they are run
one after the other from world `s`, in order. -/
def cleanResults : List (cmd σ) → σ → List error
  | [], _ => []
  | c :: cs, s => (c.Clean s).err :: cleanResults cs (c.Clean s).world

/-- The record a logging cleaner keeps: the position of the stage whose
cleanup function ran, and the command it was applied to. -/
abbrev CleanLog := List (Nat × CommandView)

/-- The command `c` with a cleanup function that behaves as that of `c` and
also appends its own position `i` and its argument to a log. -/
def logged (i : Nat) (c : cmd σ) : cmd (σ × CleanLog) :=
  { name := c.name, params := c.params,
    cleanfn := fun v w =>
      { err := (c.cleanfn v w.1).err,
        world := ((c.cleanfn v w.1).world, w.2 ++ [(i, v)]),
        params := (c.cleanfn v w.1).params } }

/-- The commands `cs`, each logging under its position, counted from `i`. -/
def loggedFrom : Nat → List (cmd σ) → List (cmd (σ × CleanLog))
  | _, [] => []
  | i, c :: cs => logged i c :: loggedFrom (i + 1) cs

/-- The pipeline `pc` with every stage logging its cleanup. -/
def pipeCmd.logged (pc : pipeCmd σ) : pipeCmd (σ × CleanLog) :=
  { stdin := pc.stdin, stdout := pc.stdout, stderr := pc.stderr,
    subCmds := loggedFrom 0 pc.subCmds }

/-- The positions and views of the commands `cs`, counted from `i`. -/
def positions : Nat → List (cmd σ) → CleanLog
  | _, [] => []
  | i, c :: cs => (i, c.view) :: positions (i + 1) cs

/-! ## A concrete launcher and concrete pipelines -/

/-- A launcher over a world without state.  `nosuch` cannot be started;
`false` exits at once with a failing status; `sleep` never exits and can be
killed; `sudo` never exits and refuses the kill request; `true` has already exited
successfully when `Run` waits for it; any other program exits successfully
after one tick: `echo` having written its arguments, any other having read
all its input and written it back followed by its own name. -/
def demoLauncher : Launcher Unit := fun name params inp s =>
  let ok : Proc :=
    { start := none, dur := some 1, stdout := inp ++ name, stderr := "log of " ++ name,
      used := inp.length, wait := none, kill := some "os: process already finished",
      tie := Branch.tchan }
  if name = "nosuch" then
    ({ ok with start := some "executable file not found", dur := none, stdout := "",
               stderr := "", used := 0 }, s)
  else if name = "false" then
    ({ ok with stdout := "", stderr := "", wait := some "exit status 1" }, s)
  else if name = "sleep" then
    ({ ok with dur := none, stdout := "", stderr := "", used := 0, kill := none }, s)
  else if name = "sudo" then
    ({ ok with dur := none, stdout := "", stderr := "", used := 0,
               kill := some "operation not permitted" }, s)
  else if name = "true" then
    ({ ok with dur := some 0, stdout := "", stderr := "", used := 0 }, s)
  else if name = "echo" then
    ({ ok with stdout := " ".intercalate params, used := 0 }, s)
  else (ok, s)

/-- A context that is never cancelled (`context.Background()`). -/
def background : Context := { after := none, err := "" }

/-- A context whose deadline passes `n` ticks after the call of `Run`. -/
def deadline (n : Nat) : Context := { after := some n, err := "context deadline exceeded" }

/-- The stage `name args...` without cleanup. -/
def stage (name : String) (args : List String) : cmd Unit := NewCommand NoCleanFn name args

/-- A cleanup function that fails with the name of its command. -/
def failWithName : Cleaner Unit := fun c s =>
  { err := some c.Name, world := s, params := c.Params }

/-- A cleanup function that stores `after` in every argument of its command:
`for i := range c.Params() { c.Params()[i] = "after" }`. -/
def rewriteArgs : Cleaner Unit := fun c s =>
  { err := none, world := s, params := c.Params.map (fun _ => "after") }

/-- A launcher over a world that records whether a temporary file exists:
`mktemp` creates the file; every program exits successfully after one tick
without output. -/
def tmpLauncher : Launcher Bool := fun name _ _ s =>
  ({ start := none, dur := some 1, stdout := "", stderr := "", used := 0, wait := none,
     kill := none, tie := Branch.tchan },
   if name = "mktemp" then true else s)

/-- A cleanup function that removes the temporary file, and fails when there
is none. -/
def removeTmp : Cleaner Bool := fun c s =>
  { err := if s then none else some "remove tmp: no such file", world := false,
    params := c.Params }

/-! ## Construction -/

theorem foldl_append_singleton (cmds acc : List (cmd σ)) :
    cmds.foldl (fun acc c => acc ++ [c]) acc = acc ++ cmds := by
  induction cmds generalizing acc with
  | nil => simp
  | cons c cs ih => simp [ih]

theorem NewPipeCmd_subCmds (cmds : List (cmd σ)) : (NewPipeCmd cmds).subCmds = cmds := by
  simp [NewPipeCmd, foldl_append_singleton]

/-! ## Clean -/

/-- Joining with a line break, as a left fold from the first message. -/
theorem intercalate_go_eq_foldl (acc : String) (ms : List String) :
    String.intercalate.go acc "\n" ms = ms.foldl (fun a e => a ++ "\n" ++ e) acc := by
  induction ms generalizing acc with
  | nil => simp [String.intercalate.go]
  | cons m ms ih => simp [String.intercalate.go, ih]

theorem cleanLoop_some (cs : List (cmd σ)) (m : String) (s : σ) :
    (cleanLoop cs (some m) s).errc =
      some (((cleanResults cs s).filterMap id).foldl (fun a e => a ++ "\n" ++ e) m) := by
  induction cs generalizing m s with
  | nil => simp [cleanLoop, cleanResults]
  | cons c cs ih =>
    cases h : (c.Clean s).err with
    | none => simp [cleanLoop, cleanResults, h, ih]
    | some e => simp [cleanLoop, cleanResults, h, ih]

theorem cleanLoop_none (cs : List (cmd σ)) (s : σ) :
    (cleanLoop cs none s).errc =
      if (cleanResults cs s).filterMap id = [] then none
      else some ("\n".intercalate ((cleanResults cs s).filterMap id)) := by
  induction cs generalizing s with
  | nil => simp [cleanLoop, cleanResults]
  | cons c cs ih =>
    cases h : (c.Clean s).err with
    | none => simp [cleanLoop, cleanResults, h, ih]
    | some e =>
      simp [cleanLoop, cleanResults, h, cleanLoop_some, String.intercalate,
        intercalate_go_eq_foldl]

theorem cleanLoop_world (cs : List (cmd σ)) (errc : error) (s : σ) :
    (cleanLoop cs errc s).world = cs.foldl (fun w c => (c.Clean w).world) s := by
  induction cs generalizing errc s with
  | nil => simp [cleanLoop]
  | cons c cs ih =>
    cases h : (c.Clean s).err with
    | none => simp [cleanLoop, h, ih]
    | some e => cases errc <;> simp [cleanLoop, h, ih]

theorem filterMap_id_eq_nil (l : List error) :
    l.filterMap id = [] ↔ ∀ e ∈ l, e = none := by
  induction l with
  | nil => simp
  | cons a l ih => cases a <;> simp [ih]

theorem logged_fold (cs : List (cmd σ)) (i : Nat) (s : σ) (log : CleanLog) :
    (loggedFrom i cs).foldl (fun w c => (c.Clean w).world) (s, log) =
      (cs.foldl (fun w c => (c.Clean w).world) s, log ++ positions i cs) := by
  induction cs generalizing i s log with
  | nil => simp [loggedFrom, positions]
  | cons c cs ih =>
    have hc : ((logged i c).Clean (s, log)).world =
        ((c.Clean s).world, log ++ [(i, c.view)]) := rfl
    simp only [loggedFrom, positions, List.foldl_cons, hc, ih, List.append_assoc,
      List.singleton_append]

theorem logged_results (cs : List (cmd σ)) (i : Nat) (s : σ) (log : CleanLog) :
    cleanResults (loggedFrom i cs) (s, log) = cleanResults cs s := by
  induction cs generalizing i s log with
  | nil => simp [loggedFrom, cleanResults]
  | cons c cs ih =>
    have hc : ((logged i c).Clean (s, log)).world =
        ((c.Clean s).world, log ++ [(i, c.view)]) := rfl
    have he : ((logged i c).Clean (s, log)).err = (c.Clean s).err := rfl
    simp only [loggedFrom, cleanResults, hc, he, ih]

theorem positions_fst (cs : List (cmd σ)) (i : Nat) :
    (positions i cs).map Prod.fst = List.range' i cs.length := by
  induction cs generalizing i with
  | nil => simp [positions]
  | cons c cs ih => simp [positions, ih, List.range']

theorem positions_snd (cs : List (cmd σ)) (i : Nat) :
    (positions i cs).map Prod.snd = cs.map cmd.view := by
  induction cs generalizing i with
  | nil => simp [positions]
  | cons c cs ih => simp [positions, ih]

/-- C5: `Clean` returns nil exactly when every cleanup returned nil, and
otherwise one error whose text is the texts of the non-nil cleanup errors, in
stage order, joined by a line break. -/
theorem Clean_joins_failures (pc : pipeCmd σ) (s : σ) :
    ((pc.Clean s).err = none ↔ ∀ e ∈ cleanResults pc.subCmds s, e = none) ∧
    (pc.Clean s).err =
      (if (cleanResults pc.subCmds s).filterMap id = [] then none
       else some ("\n".intercalate ((cleanResults pc.subCmds s).filterMap id))) := by
  have h := cleanLoop_none pc.subCmds s
  refine ⟨?_, by simpa [pipeCmd.Clean] using h⟩
  rw [← filterMap_id_eq_nil]
  simp only [pipeCmd.Clean, h]
  by_cases hnil : (cleanResults pc.subCmds s).filterMap id = [] <;> simp [hnil]

/-- The cleanups `[ok, fail "x", fail "y"]` give the error text `"x\ny"`. -/
theorem Clean_example :
    ((NewPipeCmd [NewCommand NoCleanFn "ok" [], NewCommand failWithName "x" [],
        NewCommand failWithName "y" ["-v"]]).Clean ()).err = some "x\ny" := by
  decide

/-- C6: one call of `Clean` runs the cleanup of every stage once, in pipeline
order, each on its own stage, whatever the earlier cleanups returned: the
world it leaves is the one obtained by running all cleanups in order, and
when every stage logs its cleanup the log is the list of all stages in order. -/
theorem Clean_runs_every_cleanup (pc : pipeCmd σ) (s : σ) :
    (pc.Clean s).world = pc.subCmds.foldl (fun w c => (c.Clean w).world) s ∧
    (pc.logged.Clean (s, [])).world = ((pc.Clean s).world, positions 0 pc.subCmds) ∧
    (pc.logged.Clean (s, [])).err = (pc.Clean s).err ∧
    (positions 0 pc.subCmds).map Prod.fst = List.range pc.subCmds.length ∧
    (positions 0 pc.subCmds).map Prod.snd = pc.subCmds.map cmd.view := by
  refine ⟨cleanLoop_world _ _ _, ?_, ?_, ?_, positions_snd _ _⟩
  · simp only [pipeCmd.Clean, pipeCmd.logged, cleanLoop_world, logged_fold, List.nil_append]
  · simp only [pipeCmd.Clean, pipeCmd.logged, cleanLoop_none, logged_results]
  · rw [positions_fst, List.range_eq_range']

/-! ## Run -/

theorem runLoop_subCmds (launch : Launcher σ) (ctx : Context) (cs : List (cmd σ)) (now : Nat)
    (this : pipeCmd σ) (s : σ) :
    (runLoop launch ctx cs now this s).this.subCmds = this.subCmds := by
  induction cs generalizing now this s with
  | nil => rfl
  | cons c cs ih =>
    simp only [runLoop]
    split
    · rfl
    · split
      · rfl
      · split
        · split
          · rfl
          · simp [ih]
        · split <;> rfl

/-- A stage that fails to start, or that exits with a failing status while
the `select` takes the `tchan` case, ends the loop with its own error. -/
theorem runLoop_fail (launch : Launcher σ) (ctx : Context) (cs : List (cmd σ)) (now : Nat)
    (this : pipeCmd σ) (s : σ) (k : Nat) (l : Launched) (e : String)
    (hk : (runLoop launch ctx cs now this s).launched[k]? = some l)
    (hfail : l.proc.start = some e ∨
      (l.proc.start = none ∧ select ctx l.started l.proc = some Branch.tchan ∧
        l.proc.wait = some e)) :
    (runLoop launch ctx cs now this s).ret = some ("", "", some e) ∧
    (runLoop launch ctx cs now this s).launched.length = k + 1 := by
  induction cs generalizing now this s k with
  | nil => simp [runLoop] at hk
  | cons c cs ih =>
    rcases hst : (launch c.Name c.Params this.stdin s).1.start with _ | e0
    · rcases hsel : select ctx now (launch c.Name c.Params this.stdin s).1 with _ | b
      · cases k with
        | zero =>
          simp only [runLoop, hst, hsel, List.getElem?_cons_zero, Option.some.injEq] at hk
          subst hk
          simp_all
        | succ k => simp [runLoop, hst, hsel] at hk
      · cases b with
        | tchan =>
          rcases hw : (launch c.Name c.Params this.stdin s).1.wait with _ | e1
          · cases k with
            | zero =>
              simp only [runLoop, hst, hsel, hw, List.getElem?_cons_zero, Option.some.injEq] at hk
              subst hk
              simp_all
            | succ k =>
              simp only [runLoop, hst, hsel, hw, List.getElem?_cons_succ] at hk
              have h := ih _ _ _ k hk
              simpa [runLoop, hst, hsel, hw] using h
          · cases k with
            | zero =>
              simp only [runLoop, hst, hsel, hw, List.getElem?_cons_zero, Option.some.injEq] at hk
              subst hk
              simp_all [runLoop]
            | succ k => simp [runLoop, hst, hsel, hw] at hk
        | done =>
          rcases hkill : (launch c.Name c.Params this.stdin s).1.kill with _ | e1
          · cases k with
            | zero =>
              simp only [runLoop, hst, hsel, hkill, List.getElem?_cons_zero,
                Option.some.injEq] at hk
              subst hk
              simp_all
            | succ k => simp [runLoop, hst, hsel, hkill] at hk
          · cases k with
            | zero =>
              simp only [runLoop, hst, hsel, hkill, List.getElem?_cons_zero,
                Option.some.injEq] at hk
              subst hk
              simp_all
            | succ k => simp [runLoop, hst, hsel, hkill] at hk
    · cases k with
      | zero =>
        simp only [runLoop, hst, List.getElem?_cons_zero, Option.some.injEq] at hk
        subst hk
        simp_all [runLoop]
      | succ k => simp [runLoop, hst] at hk

/-- A started stage at which the `select` takes the `ctx.Done()` case ends the
loop with the error of the kill request, or with `ctx.Err()` when there is none. -/
theorem runLoop_cancel (launch : Launcher σ) (ctx : Context) (cs : List (cmd σ)) (now : Nat)
    (this : pipeCmd σ) (s : σ) (k : Nat) (l : Launched)
    (hk : (runLoop launch ctx cs now this s).launched[k]? = some l)
    (hstart : l.proc.start = none)
    (hdone : select ctx l.started l.proc = some Branch.done) :
    (runLoop launch ctx cs now this s).ret = some ("", "", some (l.proc.kill.getD ctx.err)) ∧
    (runLoop launch ctx cs now this s).launched.length = k + 1 := by
  induction cs generalizing now this s k with
  | nil => simp [runLoop] at hk
  | cons c cs ih =>
    rcases hst : (launch c.Name c.Params this.stdin s).1.start with _ | e0
    · rcases hsel : select ctx now (launch c.Name c.Params this.stdin s).1 with _ | b
      · cases k with
        | zero =>
          simp only [runLoop, hst, hsel, List.getElem?_cons_zero, Option.some.injEq] at hk
          subst hk
          simp_all [runLoop]
        | succ k => simp [runLoop, hst, hsel] at hk
      · cases b with
        | tchan =>
          rcases hw : (launch c.Name c.Params this.stdin s).1.wait with _ | e1
          · cases k with
            | zero =>
              simp only [runLoop, hst, hsel, hw, List.getElem?_cons_zero, Option.some.injEq] at hk
              subst hk
              simp_all [runLoop]
            | succ k =>
              simp only [runLoop, hst, hsel, hw, List.getElem?_cons_succ] at hk
              have h := ih _ _ _ k hk
              simpa [runLoop, hst, hsel, hw] using h
          · cases k with
            | zero =>
              simp only [runLoop, hst, hsel, hw, List.getElem?_cons_zero, Option.some.injEq] at hk
              subst hk
              simp_all [runLoop]
            | succ k => simp [runLoop, hst, hsel, hw] at hk
        | done =>
          rcases hkill : (launch c.Name c.Params this.stdin s).1.kill with _ | e1
          · cases k with
            | zero =>
              simp only [runLoop, hst, hsel, hkill, List.getElem?_cons_zero,
                Option.some.injEq] at hk
              subst hk
              simp_all [runLoop]
            | succ k => simp [runLoop, hst, hsel, hkill] at hk
          · cases k with
            | zero =>
              simp only [runLoop, hst, hsel, hkill, List.getElem?_cons_zero,
                Option.some.injEq] at hk
              subst hk
              simp_all [runLoop]
            | succ k => simp [runLoop, hst, hsel, hkill] at hk
    · cases k with
      | zero =>
        simp only [runLoop, hst, List.getElem?_cons_zero, Option.some.injEq] at hk
        subst hk
        simp_all [runLoop]
      | succ k => simp [runLoop, hst] at hk

/-- With a context that never fires and stages that all start and exit
successfully, every command is launched, each is fed the output of the one
before it, and the result is the output of the last one. -/
theorem runLoop_chain (launch : Launcher σ) (ctx : Context) (cs : List (cmd σ)) (now : Nat)
    (this : pipeCmd σ) (s : σ) (hctx : ctx.after = none)
    (hok : ∀ l ∈ (runLoop launch ctx cs now this s).launched,
      l.proc.start = none ∧ l.proc.dur ≠ none ∧ l.proc.wait = none) :
    (runLoop launch ctx cs now this s).launched.map (fun l => (l.name, l.params)) =
      cs.map (fun c => (c.Name, c.Params)) ∧
    (runLoop launch ctx cs now this s).launched.map (fun l => l.stdin) =
      (this.stdin :: (runLoop launch ctx cs now this s).launched.map
        (fun l => l.proc.stdout)).dropLast ∧
    (runLoop launch ctx cs now this s).ret =
      some (match (runLoop launch ctx cs now this s).launched.getLast? with
        | some l => (l.proc.stdout, l.proc.stderr, none)
        | none => (this.stdout, this.stderr, none)) := by
  induction cs generalizing now this s with
  | nil => simp [runLoop]
  | cons c cs ih =>
    rcases hst : (launch c.Name c.Params this.stdin s).1.start with _ | e0
    · rcases hdur : (launch c.Name c.Params this.stdin s).1.dur with _ | d
      · have hsel : select ctx now (launch c.Name c.Params this.stdin s).1 = none := by
          simp [select, hctx, hdur]
        simp [runLoop, hst, hsel, hdur] at hok
      · have hsel : select ctx now (launch c.Name c.Params this.stdin s).1 = some Branch.tchan := by
          simp [select, hctx, hdur]
        rcases hw : (launch c.Name c.Params this.stdin s).1.wait with _ | e1
        · simp only [runLoop, hst, hsel, hw, List.mem_cons, forall_eq_or_imp] at hok
          obtain ⟨h1, h2, h3⟩ := ih _ _ _ hok.2
          simp only [runLoop, hst, hsel, hw, List.map_cons]
          refine ⟨?_, ?_, ?_⟩
          · rw [h1]
          · rw [h2]; rfl
          · rw [h3]
            cases (runLoop launch ctx cs (now + (launch c.Name c.Params this.stdin s).1.dur.getD 0)
              { stdin := (launch c.Name c.Params this.stdin s).1.stdout,
                stdout := (launch c.Name c.Params this.stdin s).1.stdout,
                stderr := (launch c.Name c.Params this.stdin s).1.stderr,
                subCmds := this.subCmds } (launch c.Name c.Params this.stdin s).2).launched with
            | nil => simp
            | cons x xs =>
              simp only [List.getLast?_cons_cons]
              rw [List.getLast?_eq_getLast _ (List.cons_ne_nil x xs)]
        · simp [runLoop, hst, hsel, hw] at hok
    · simp [runLoop, hst] at hok

/-- C1: a freshly built pipeline of at least one stage, run with a context
that never fires and stages that all start and exit successfully, launches
every stage in order, feeds the empty input to the first stage and to every
later stage the standard output of the stage before it, and returns the
standard output and standard error of the last stage with a nil error. -/
theorem Run_chains_stdout (launch : Launcher σ) (ctx : Context) (cmds : List (cmd σ)) (s : σ)
    (hne : cmds ≠ []) (hctx : ctx.after = none)
    (hok : ∀ l ∈ ((NewPipeCmd cmds).Run launch ctx s).launched,
      l.proc.start = none ∧ l.proc.dur ≠ none ∧ l.proc.wait = none) :
    ((NewPipeCmd cmds).Run launch ctx s).launched.map (fun l => (l.name, l.params)) =
      cmds.map (fun c => (c.Name, c.Params)) ∧
    ((NewPipeCmd cmds).Run launch ctx s).launched.map (fun l => l.stdin) =
      "" :: (((NewPipeCmd cmds).Run launch ctx s).launched.map
        (fun l => l.proc.stdout)).dropLast ∧
    ∃ last, ((NewPipeCmd cmds).Run launch ctx s).launched.getLast? = some last ∧
      ((NewPipeCmd cmds).Run launch ctx s).ret =
        some (last.proc.stdout, last.proc.stderr, none) := by
  simp only [pipeCmd.Run, NewPipeCmd_subCmds] at hok ⊢
  obtain ⟨h1, h2, h3⟩ := runLoop_chain launch ctx cmds 0 (NewPipeCmd cmds) s hctx hok
  have hlen : (runLoop launch ctx cmds 0 (NewPipeCmd cmds) s).launched ≠ [] := by
    intro h
    rw [h] at h1
    cases cmds with
    | nil => exact hne rfl
    | cons c cs => simp at h1
  refine ⟨h1, ?_, ?_⟩
  · rw [h2]
    cases hl : (runLoop launch ctx cmds 0 (NewPipeCmd cmds) s).launched with
    | nil => exact absurd hl hlen
    | cons x xs => simp [NewPipeCmd]
  · rw [h3]
    rw [List.getLast?_eq_getLast _ hlen]
    exact ⟨_, rfl, rfl⟩

theorem Run_chains_stdout_witness :
    ((NewPipeCmd [stage "ps" ["-ef"], stage "grep" ["watchdog"], stage "wc" []]).Run
        demoLauncher background ()).launched.map (fun l => l.stdin) =
      ["", "ps", "psgrep"] ∧
    ((NewPipeCmd [stage "ps" ["-ef"], stage "grep" ["watchdog"], stage "wc" []]).Run
        demoLauncher background ()).ret = some ("psgrepwc", "log of wc", none) := by
  obtain ⟨_, h2, last, h3, h4⟩ :=
    Run_chains_stdout demoLauncher background
      [stage "ps" ["-ef"], stage "grep" ["watchdog"], stage "wc" []] ()
      (by simp) rfl (by decide)
  refine ⟨by rw [h2]; decide, ?_⟩
  rw [h4]
  have h5 : ((NewPipeCmd [stage "ps" ["-ef"], stage "grep" ["watchdog"], stage "wc" []]).Run
      demoLauncher background ()).launched.getLast? =
      some ⟨"wc", [], "psgrep", 2, (demoLauncher "wc" [] "psgrep" ()).1⟩ := by decide
  rw [h5] at h3
  cases h3
  decide

/-- C2: when the stage at position `k` (counted from 0) is launched and
either fails to start or exits with a failing status before the context
fires, `Run` returns empty output with exactly that error, and no later stage
is launched; both kinds of failure give the same shape of result. -/
theorem Run_stage_failure (launch : Launcher σ) (ctx : Context) (pc : pipeCmd σ) (s : σ)
    (k : Nat) (l : Launched) (e : String)
    (hk : (pc.Run launch ctx s).launched[k]? = some l)
    (hfail : l.proc.start = some e ∨
      (l.proc.start = none ∧ select ctx l.started l.proc = some Branch.tchan ∧
        l.proc.wait = some e)) :
    (pc.Run launch ctx s).ret = some ("", "", some e) ∧
    (pc.Run launch ctx s).launched.length = k + 1 :=
  runLoop_fail launch ctx pc.subCmds 0 pc s k l e hk hfail

theorem Run_stage_failure_witness :
    ((NewPipeCmd [stage "ps" ["-ef"], stage "false" [], stage "wc" []]).Run
        demoLauncher background ()).ret = some ("", "", some "exit status 1") ∧
    ((NewPipeCmd [stage "ps" ["-ef"], stage "false" [], stage "wc" []]).Run
        demoLauncher background ()).launched.length = 2 ∧
    ((NewPipeCmd [stage "ps" ["-ef"], stage "nosuch" [], stage "wc" []]).Run
        demoLauncher background ()).ret = some ("", "", some "executable file not found") :=
  ⟨(Run_stage_failure demoLauncher background
      (NewPipeCmd [stage "ps" ["-ef"], stage "false" [], stage "wc" []]) () 1
      ⟨"false", [], "ps", 1, (demoLauncher "false" [] "ps" ()).1⟩ "exit status 1"
      (by decide) (Or.inr (by decide))).1,
   (Run_stage_failure demoLauncher background
      (NewPipeCmd [stage "ps" ["-ef"], stage "false" [], stage "wc" []]) () 1
      ⟨"false", [], "ps", 1, (demoLauncher "false" [] "ps" ()).1⟩ "exit status 1"
      (by decide) (Or.inr (by decide))).2,
   (Run_stage_failure demoLauncher background
      (NewPipeCmd [stage "ps" ["-ef"], stage "nosuch" [], stage "wc" []]) () 1
      ⟨"nosuch", [], "ps", 1, (demoLauncher "nosuch" [] "ps" ()).1⟩ "executable file not found"
      (by decide) (Or.inl (by decide))).1⟩

/-- C3, as stated, fails: the deadline passes while `sudo` is still running
and the kill request is refused; `Run` returns the error of the kill request,
not `ctx.Err()`. -/
theorem Run_cancel_returns_kill_error :
    ((NewPipeCmd [stage "sudo" ["tail"]]).Run demoLauncher (deadline 1) ()).launched =
      [⟨"sudo", ["tail"], "", 0, (demoLauncher "sudo" ["tail"] "" ()).1⟩] ∧
    (demoLauncher "sudo" ["tail"] "" ()).1.start = none ∧
    (demoLauncher "sudo" ["tail"] "" ()).1.dur = none ∧
    select (deadline 1) 0 (demoLauncher "sudo" ["tail"] "" ()).1 = some Branch.done ∧
    ((NewPipeCmd [stage "sudo" ["tail"]]).Run demoLauncher (deadline 1) ()).ret =
      some ("", "", some "operation not permitted") ∧
    ((NewPipeCmd [stage "sudo" ["tail"]]).Run demoLauncher (deadline 1) ()).ret ≠
      some ("", "", some (deadline 1).err) := by
  decide

/-- C3, amended: when the stage at position `k` (counted from 0) has been
started and the `select` takes the `ctx.Done()` case, `Run` asks for the
process to be killed, launches no further stage, and returns empty output
with `ctx.Err()` when the kill request succeeds and with the error of the
kill request when it fails. -/
theorem Run_cancel (launch : Launcher σ) (ctx : Context) (pc : pipeCmd σ) (s : σ)
    (k : Nat) (l : Launched)
    (hk : (pc.Run launch ctx s).launched[k]? = some l)
    (hstart : l.proc.start = none)
    (hdone : select ctx l.started l.proc = some Branch.done) :
    (pc.Run launch ctx s).ret =
      some ("", "", some (match l.proc.kill with
        | none => ctx.err
        | some e => e)) ∧
    (pc.Run launch ctx s).launched.length = k + 1 := by
  have h := runLoop_cancel launch ctx pc.subCmds 0 pc s k l hk hstart hdone
  cases hkill : l.proc.kill <;> simpa [pipeCmd.Run, hkill] using h

theorem Run_cancel_witness :
    ((NewPipeCmd [stage "ps" ["-ef"], stage "sleep" ["9"], stage "wc" []]).Run
        demoLauncher (deadline 3) ()).ret = some ("", "", some "context deadline exceeded") ∧
    ((NewPipeCmd [stage "ps" ["-ef"], stage "sleep" ["9"], stage "wc" []]).Run
        demoLauncher (deadline 3) ()).launched.length = 2 :=
  Run_cancel demoLauncher (deadline 3)
    (NewPipeCmd [stage "ps" ["-ef"], stage "sleep" ["9"], stage "wc" []]) () 1
    ⟨"sleep", ["9"], "ps", 1, (demoLauncher "sleep" ["9"] "ps" ()).1⟩
    (by decide) (by decide) (by decide)

/-- C4, as stated, fails: a pipeline without stages run with a context that
has already fired returns a nil error.  With one stage and such a context,
the error is that of `Start` when the stage cannot be started, that of the
kill request when it is refused, and nil when the process had already exited
and the `select` took its completion. -/
theorem Run_prefired_empty_pipeline :
    (deadline 0).after = some 0 ∧
    ((NewPipeCmd ([] : List (cmd Unit))).Run demoLauncher (deadline 0) ()).ret =
      some ("", "", none) ∧
    ((NewPipeCmd [stage "nosuch" []]).Run demoLauncher (deadline 0) ()).ret =
      some ("", "", some "executable file not found") ∧
    ((NewPipeCmd [stage "sudo" ["tail"]]).Run demoLauncher (deadline 0) ()).ret =
      some ("", "", some "operation not permitted") ∧
    ((NewPipeCmd [stage "true" []]).Run demoLauncher (deadline 0) ()).ret =
      some ("", "", none) := by
  decide

/-- C4, amended: for a pipeline with at least one stage and a context that
has already fired when `Run` is called, if the first stage starts, has not
exited when `Run` waits for it, and the kill request succeeds, then `Run`
returns empty output with `ctx.Err()`, having launched only the first stage. -/
theorem Run_prefired (launch : Launcher σ) (ctx : Context) (pc : pipeCmd σ) (s : σ)
    (c : cmd σ) (cs : List (cmd σ))
    (hpc : pc.subCmds = c :: cs) (hctx : ctx.after = some 0)
    (hstart : (launch c.Name c.Params pc.stdin s).1.start = none)
    (hrun : (launch c.Name c.Params pc.stdin s).1.dur ≠ some 0)
    (hkill : (launch c.Name c.Params pc.stdin s).1.kill = none) :
    (pc.Run launch ctx s).ret = some ("", "", some ctx.err) ∧
    (pc.Run launch ctx s).launched.length = 1 := by
  have hsel : select ctx 0 (launch c.Name c.Params pc.stdin s).1 = some Branch.done := by
    rcases hd : (launch c.Name c.Params pc.stdin s).1.dur with _ | d
    · simp [select, hctx, hd]
    · have hd0 : d ≠ 0 := fun h => hrun (by rw [hd, h])
      have hpos : 0 < d := Nat.pos_of_ne_zero hd0
      simp [select, hctx, hd, hpos]
  simp [pipeCmd.Run, hpc, runLoop, hstart, hsel, hkill]

theorem Run_prefired_witness :
    ((NewPipeCmd [stage "sleep" ["9"], stage "wc" []]).Run demoLauncher
        { after := some 0, err := "context canceled" } ()).ret =
      some ("", "", some "context canceled") ∧
    ((NewPipeCmd [stage "sleep" ["9"], stage "wc" []]).Run demoLauncher
        { after := some 0, err := "context canceled" } ()).launched.length = 1 :=
  Run_prefired demoLauncher { after := some 0, err := "context canceled" }
    (NewPipeCmd [stage "sleep" ["9"], stage "wc" []]) () (stage "sleep" ["9"]) [stage "wc" []]
    (by simp [NewPipeCmd]) rfl (by decide) (by decide) (by decide)

/-- C7, evaluated: after a first successful `Run` of the one-stage pipeline
`tee`, a second `Run` of the same pipeline under the same launcher and context
binds the output of the first run to the standard input of the first stage,
and returns a different result. -/
theorem Run_twice_feeds_previous_output :
    ((NewPipeCmd [stage "tee" []]).Run demoLauncher background ()).launched.map
        (fun l => l.stdin) = [""] ∧
    ((NewPipeCmd [stage "tee" []]).Run demoLauncher background ()).ret =
      some ("tee", "log of tee", none) ∧
    (((NewPipeCmd [stage "tee" []]).Run demoLauncher background ()).this.Run
        demoLauncher background ()).launched.map (fun l => l.stdin) = ["tee"] ∧
    (((NewPipeCmd [stage "tee" []]).Run demoLauncher background ()).this.Run
        demoLauncher background ()).ret = some ("teetee", "log of tee", none) ∧
    runs [(demoLauncher, background), (demoLauncher, background)]
        (NewPipeCmd [stage "tee" []]) () =
      [some ("tee", "log of tee", none), some ("teetee", "log of tee", none)] := by
  decide

theorem Run_nil (launch : Launcher σ) (ctx : Context) (s : σ) :
    (NewPipeCmd ([] : List (cmd σ))).Run launch ctx s =
      { ret := some ("", "", none), this := NewPipeCmd [], world := s, launched := [] } := by
  simp [pipeCmd.Run, NewPipeCmd, runLoop]

theorem runs_nil (calls : List (Launcher σ × Context)) (s : σ) :
    runs calls (NewPipeCmd ([] : List (cmd σ))) s =
      calls.map (fun _ => some ("", "", none)) := by
  induction calls with
  | nil => rfl
  | cons c calls ih =>
    obtain ⟨launch, ctx⟩ := c
    simp only [runs, Run_nil, List.map_cons, ih]

/-- C8: `Run` on a pipeline built from no stages returns empty output and a
nil error, launches nothing and leaves the pipeline and the world as they
were; every call of any sequence of calls on that pipeline returns empty
output and a nil error. -/
theorem Run_empty_pipeline (launch : Launcher σ) (ctx : Context) (s : σ)
    (calls : List (Launcher σ × Context)) :
    ((NewPipeCmd ([] : List (cmd σ))).Run launch ctx s).ret = some ("", "", none) ∧
    ((NewPipeCmd ([] : List (cmd σ))).Run launch ctx s).launched = [] ∧
    ((NewPipeCmd ([] : List (cmd σ))).Run launch ctx s).this = NewPipeCmd [] ∧
    ((NewPipeCmd ([] : List (cmd σ))).Run launch ctx s).world = s ∧
    runs calls (NewPipeCmd ([] : List (cmd σ))) s =
      calls.map (fun _ => some ("", "", none)) := by
  rw [Run_nil]
  exact ⟨rfl, rfl, rfl, rfl, runs_nil calls s⟩

/-- C9, as stated, fails: a run that fails at its first stage and a run that
fails at its second stage, the launcher reporting the same error for both,
return the same value; so do a launch failure and an execution failure. -/
theorem Run_errors_not_distinguishable :
    ((NewPipeCmd [stage "false" [], stage "wc" []]).Run demoLauncher background ()).launched.length
      = 1 ∧
    ((NewPipeCmd [stage "ps" [], stage "false" []]).Run demoLauncher background ()).launched.length
      = 2 ∧
    ((NewPipeCmd [stage "false" [], stage "wc" []]).Run demoLauncher background ()).ret =
      ((NewPipeCmd [stage "ps" [], stage "false" []]).Run demoLauncher background ()).ret ∧
    ((NewPipeCmd [stage "x" []]).Run
        (fun _ _ _ s => (⟨some "failed", none, "", "", 0, none, none, Branch.tchan⟩, s))
        background ()).ret =
      ((NewPipeCmd [stage "x" []]).Run
        (fun _ _ _ s => (⟨none, some 1, "", "", 0, some "failed", none, Branch.tchan⟩, s))
        background ()).ret := by
  decide

/-- C9, amended: the error `Run` returns on a launch failure or an execution
failure is the error reported by the launcher, unchanged; two such runs
return the same value exactly when the launcher reported the same error,
whatever the positions of the failing stages and the kinds of failure. -/
theorem Run_error_is_launcher_error (launch₁ launch₂ : Launcher σ) (ctx₁ ctx₂ : Context)
    (pc₁ pc₂ : pipeCmd σ) (s₁ s₂ : σ) (k₁ k₂ : Nat) (l₁ l₂ : Launched) (e₁ e₂ : String)
    (hk₁ : (pc₁.Run launch₁ ctx₁ s₁).launched[k₁]? = some l₁)
    (hfail₁ : l₁.proc.start = some e₁ ∨
      (l₁.proc.start = none ∧ select ctx₁ l₁.started l₁.proc = some Branch.tchan ∧
        l₁.proc.wait = some e₁))
    (hk₂ : (pc₂.Run launch₂ ctx₂ s₂).launched[k₂]? = some l₂)
    (hfail₂ : l₂.proc.start = some e₂ ∨
      (l₂.proc.start = none ∧ select ctx₂ l₂.started l₂.proc = some Branch.tchan ∧
        l₂.proc.wait = some e₂)) :
    (pc₁.Run launch₁ ctx₁ s₁).ret = some ("", "", some e₁) ∧
    ((pc₁.Run launch₁ ctx₁ s₁).ret = (pc₂.Run launch₂ ctx₂ s₂).ret ↔ e₁ = e₂) := by
  have h₁ := (runLoop_fail launch₁ ctx₁ pc₁.subCmds 0 pc₁ s₁ k₁ l₁ e₁ hk₁ hfail₁).1
  have h₂ := (runLoop_fail launch₂ ctx₂ pc₂.subCmds 0 pc₂ s₂ k₂ l₂ e₂ hk₂ hfail₂).1
  refine ⟨h₁, ?_⟩
  simp only [pipeCmd.Run, h₁, h₂]
  simp

theorem Run_error_is_launcher_error_witness :
    ((NewPipeCmd [stage "nosuch" []]).Run demoLauncher background ()).ret =
      some ("", "", some "executable file not found") ∧
    (((NewPipeCmd [stage "nosuch" []]).Run demoLauncher background ()).ret =
      ((NewPipeCmd [stage "ps" [], stage "false" []]).Run demoLauncher background ()).ret ↔
      "executable file not found" = "exit status 1") :=
  Run_error_is_launcher_error demoLauncher demoLauncher background background
    (NewPipeCmd [stage "nosuch" []]) (NewPipeCmd [stage "ps" [], stage "false" []]) () () 0 1
    ⟨"nosuch", [], "", 0, (demoLauncher "nosuch" [] "" ()).1⟩
    ⟨"false", [], "ps", 1, (demoLauncher "false" [] "ps" ()).1⟩
    "executable file not found" "exit status 1"
    (by decide) (Or.inl (by decide)) (by decide) (Or.inr (by decide))

/-! ## What Run and Clean leave of the pipeline -/

theorem overwrite_length (old new : List String) :
    (overwrite old new).length = old.length := by
  induction old generalizing new with
  | nil => rfl
  | cons x xs ih => cases new <;> simp [overwrite, ih]

theorem cleanLoop_cmds_name (cs : List (cmd σ)) (errc : error) (s : σ) :
    (cleanLoop cs errc s).cmds.map cmd.name = cs.map cmd.name := by
  induction cs generalizing errc s with
  | nil => simp [cleanLoop]
  | cons c cs ih =>
    cases h : (c.Clean s).err with
    | none => simp only [cleanLoop, h, List.map_cons, ih]; rfl
    | some e => cases errc <;> (simp only [cleanLoop, h, List.map_cons, ih]; rfl)

theorem cleanLoop_cmds_cleanfn (cs : List (cmd σ)) (errc : error) (s : σ) :
    (cleanLoop cs errc s).cmds.map cmd.cleanfn = cs.map cmd.cleanfn := by
  induction cs generalizing errc s with
  | nil => simp [cleanLoop]
  | cons c cs ih =>
    cases h : (c.Clean s).err with
    | none => simp only [cleanLoop, h, List.map_cons, ih]; rfl
    | some e => cases errc <;> (simp only [cleanLoop, h, List.map_cons, ih]; rfl)

theorem cleanLoop_cmds_arity (cs : List (cmd σ)) (errc : error) (s : σ) :
    (cleanLoop cs errc s).cmds.map (fun c => c.params.length) =
      cs.map (fun c => c.params.length) := by
  induction cs generalizing errc s with
  | nil => simp [cleanLoop]
  | cons c cs ih =>
    cases h : (c.Clean s).err with
    | none =>
      simp only [cleanLoop, h, List.map_cons, ih]
      simp [cmd.Clean, overwrite_length]
    | some e =>
      cases errc <;>
        (simp only [cleanLoop, h, List.map_cons, ih]
         simp [cmd.Clean, overwrite_length])

/-- Two lists of stages with the same names, arguments and cleanups are equal. -/
theorem cmds_eq_of_fields (l₁ l₂ : List (cmd σ))
    (hn : l₁.map cmd.name = l₂.map cmd.name)
    (hc : l₁.map cmd.cleanfn = l₂.map cmd.cleanfn)
    (hp : l₁.map cmd.params = l₂.map cmd.params) : l₁ = l₂ := by
  induction l₁ generalizing l₂ with
  | nil =>
    cases l₂ with
    | nil => rfl
    | cons b l₂ => simp at hn
  | cons a l₁ ih =>
    cases l₂ with
    | nil => simp at hn
    | cons b l₂ =>
      simp only [List.map_cons, List.cons.injEq] at hn hc hp
      rw [ih l₂ hn.2 hc.2 hp.2]
      obtain ⟨an, ap, ac⟩ := a
      obtain ⟨bn, bp, bc⟩ := b
      simp only at hn hc hp
      rw [hn.1, hc.1, hp.1]

/-- C10, as stated, fails.  A cleanup can store other strings in the
arguments of its stage: the stage then no longer has the arguments given to
`NewCommand`, and a `Run` after `Clean` returns `after` where a `Run` without
`Clean` returns `before`.  And `Clean` acts on the world that `Run` left:
removing a temporary file fails when `Run` was never invoked and succeeds
after the `Run` that created the file. -/
theorem Clean_and_Run_interfere :
    ((NewPipeCmd [NewCommand rewriteArgs "echo" ["before"]]).Run
        demoLauncher background ()).ret = some ("before", "log of echo", none) ∧
    (((NewPipeCmd [NewCommand rewriteArgs "echo" ["before"]]).Clean ()).this.Run
        demoLauncher background ()).ret = some ("after", "log of echo", none) ∧
    ((NewPipeCmd [NewCommand rewriteArgs "echo" ["before"]]).Clean ()).this.subCmds.map
        cmd.Params = [["after"]] ∧
    ((NewPipeCmd [NewCommand removeTmp "mktemp" []]).Clean false).err =
      some "remove tmp: no such file" ∧
    ((NewPipeCmd [NewCommand removeTmp "mktemp" []]).Run tmpLauncher background false).ret =
      some ("", "", none) ∧
    (((NewPipeCmd [NewCommand removeTmp "mktemp" []]).Run tmpLauncher background false).this.Clean
        ((NewPipeCmd [NewCommand removeTmp "mktemp" []]).Run
          tmpLauncher background false).world).err = none := by
  decide

/-- C10, amended: a stage keeps the name, arguments and cleanup given to
`NewCommand`, and the stages of a pipeline are the arguments of `NewPipeCmd`,
in order; `Run` leaves the stages unchanged; `Clean` leaves the buffers, the
order and number of the stages, their names, their cleanups and their numbers
of arguments unchanged; from one and the same state of the world, `Clean` on
the pipeline a `Run` left returns and does what it returns and does on the
pipeline before that `Run`, whatever the outcome of the `Run`; and when the
cleanups of a `Clean` have left the arguments as they were, the pipeline is
unchanged and a later `Run` is a `Run` of the pipeline as it was before. -/
theorem Clean_Run_frame (launch : Launcher σ) (ctx : Context) (pc : pipeCmd σ) (s w : σ)
    (cleanfn : Cleaner σ) (name : String) (args : List String) (cmds : List (cmd σ)) :
    ((NewCommand cleanfn name args).Name = name ∧
      (NewCommand cleanfn name args).Params = args ∧
      (NewCommand cleanfn name args).cleanfn = cleanfn) ∧
    (NewPipeCmd cmds).subCmds = cmds ∧
    (pc.Run launch ctx s).this.subCmds = pc.subCmds ∧
    ((pc.Clean s).this.stdin = pc.stdin ∧ (pc.Clean s).this.stdout = pc.stdout ∧
      (pc.Clean s).this.stderr = pc.stderr) ∧
    ((pc.Clean s).this.subCmds.map cmd.name = pc.subCmds.map cmd.name ∧
      (pc.Clean s).this.subCmds.map cmd.cleanfn = pc.subCmds.map cmd.cleanfn ∧
      (pc.Clean s).this.subCmds.map (fun c => c.params.length) =
        pc.subCmds.map (fun c => c.params.length)) ∧
    (((pc.Run launch ctx s).this.Clean w).err = (pc.Clean w).err ∧
      ((pc.Run launch ctx s).this.Clean w).world = (pc.Clean w).world ∧
      ((pc.Run launch ctx s).this.Clean w).this.subCmds = (pc.Clean w).this.subCmds) ∧
    ((pc.Clean s).this.subCmds.map cmd.params = pc.subCmds.map cmd.params →
      (pc.Clean s).this = pc ∧ (pc.Clean s).this.Run launch ctx w = pc.Run launch ctx w) := by
  have h : (pc.Run launch ctx s).this.subCmds = pc.subCmds := runLoop_subCmds _ _ _ _ _ _
  have hn := cleanLoop_cmds_name pc.subCmds none s
  have hc := cleanLoop_cmds_cleanfn pc.subCmds none s
  refine ⟨⟨rfl, rfl, rfl⟩, NewPipeCmd_subCmds cmds, h, ⟨rfl, rfl, rfl⟩,
    ⟨hn, hc, cleanLoop_cmds_arity pc.subCmds none s⟩, ⟨?_, ?_, ?_⟩, ?_⟩
  · simp only [pipeCmd.Clean, h]
  · simp only [pipeCmd.Clean, h]
  · simp only [pipeCmd.Clean, h]
  · intro hp
    have heq : (pc.Clean s).this = pc := by
      have hcmds : (cleanLoop pc.subCmds none s).cmds = pc.subCmds :=
        cmds_eq_of_fields _ _ hn hc hp
      simp only [pipeCmd.Clean, hcmds]
    exact ⟨heq, by rw [heq]⟩

theorem Clean_Run_frame_witness :
    ((NewPipeCmd [stage "ps" ["-ef"], stage "wc" ["-l"]]).Clean ()).this.subCmds.map cmd.params =
      (NewPipeCmd [stage "ps" ["-ef"], stage "wc" ["-l"]]).subCmds.map cmd.params ∧
    ((NewPipeCmd [stage "ps" ["-ef"], stage "wc" ["-l"]]).Clean ()).this =
      NewPipeCmd [stage "ps" ["-ef"], stage "wc" ["-l"]] ∧
    ((NewPipeCmd [stage "ps" ["-ef"], stage "wc" ["-l"]]).Clean ()).this.Run
        demoLauncher (deadline 1) () =
      (NewPipeCmd [stage "ps" ["-ef"], stage "wc" ["-l"]]).Run demoLauncher (deadline 1) () :=
  ⟨by decide,
   (Clean_Run_frame demoLauncher (deadline 1) (NewPipeCmd [stage "ps" ["-ef"], stage "wc" ["-l"]])
      () () NoCleanFn "" [] []).2.2.2.2.2.2 (by decide)⟩

end shellCommander
